import Mathlib

/-!
Shallow embedding of `src/merger.py` ("merging read count shelves into
pytables wssd_out_files") and verification of its specification claims.

Modelling conventions:
* a numpy 2-D array of unsigned counts is a row-major `List (List Nat)`;
* a scipy sparse matrix is a COO-style structure carrying its shape and a
  list of `(row, col, value)` entries; `toarray` densifies it (duplicate
  entries sum, as in scipy);
* a shelve (producer store) is an association list from region name to a
  producer-side matrix value (dense, sparse, or of an unrecognized type);
* the accumulator dictionary (`contigs` / `contig`) is an association list
  from region name to `Option Mat`, `none` being Python's `None` sentinel;
* Python exceptions (`KeyError`, `TypeError` from `None + matrix`, dbm
  open errors, `sys.exit` in `convert_matrix`, numpy shape errors) are an
  explicit `Except MergeErr` result;
* filesystem and shelve I/O are an environment parameter, and observable
  actions (opens with their flag, merges, sleeps, array creation, flush)
  are recorded in an event trace.
-/

set_option autoImplicit false

/-- A dense 2-D numpy array of unsigned counts, row-major. -/
abbrev Mat := List (List Nat)

/-- The shape of a dense matrix, given as the list of its row lengths
(for the rectangular arrays numpy produces this determines `(nrows, ncols)`). -/
def rowLens (m : Mat) : List Nat := m.map List.length

/-- numpy elementwise `+=` on two same-shaped arrays (total version,
meaningful when the shapes agree). -/
def matAddT (a b : Mat) : Mat := List.zipWith (List.zipWith (· + ·)) a b

/-- numpy elementwise `+=`: succeeds on equal shapes, raises otherwise
(shape mismatch is a hard error per the spec's data-model invariant). -/
def matAdd (a b : Mat) : Except Unit Mat :=
  if rowLens a = rowLens b then .ok (matAddT a b) else .error ()

/-- A scipy sparse matrix in COO form: shape plus `(row, col, value)` entries. -/
structure SparseMat where
  shapeR : Nat
  shapeC : Nat
  entries : List (Nat × Nat × Nat)
deriving DecidableEq

/-- scipy `toarray`: densify, summing duplicate entries. -/
def SparseMat.toarray (s : SparseMat) : Mat :=
  (List.range s.shapeR).map (fun i =>
    (List.range s.shapeC).map (fun j =>
      ((s.entries.filter (fun e => e.1 == i && e.2.1 == j)).map (fun e => e.2.2)).sum))

/-- A matrix value as stored by a producer: a dense numpy array, a scipy
sparse matrix, or a value of some other (unsupported) type, identified by
its type name. -/
inductive PyMatrix where
  | dense (m : Mat)
  | sparse (s : SparseMat)
  | other (typeName : String)
deriving DecidableEq

/-- The dense content of a producer matrix (junk for the unsupported case,
which is excluded wherever this is used). -/
def PyMatrix.toDense : PyMatrix → Mat
  | .dense m => m
  | .sparse s => s.toarray
  | .other _ => []

/-- `true` exactly for the two matrix kinds `convert_matrix` accepts. -/
def PyMatrix.isNumeric : PyMatrix → Bool
  | .other _ => false
  | _ => true

/-- The error outcomes of the merger core.  `unsupportedType` carries the
line printed to stderr and the process exit status of `sys.exit(1)`;
`typeErrorNoneAdd` is the `TypeError` raised by `None += matrix`;
`keyError` is a Python `KeyError`; `openFailure` a shelve open exception
propagating in batch mode; `indexError` an out-of-range `[0]` index. -/
inductive MergeErr where
  | unsupportedType (stderrLine : String) (status : Nat)
  | typeErrorNoneAdd
  | shapeMismatch
  | keyError (key : String)
  | openFailure (path : String)
  | indexError
deriving DecidableEq

/--
`convert_matrix` from `src/merger.py`:
```
if issparse(matrix): matrix = matrix.toarray()
if isinstance(matrix, np.ndarray): return matrix
else: print("Error: unrecognized data type for matrix: %s" % name, file=stderr); sys.exit(1)
```
-/
def convert_matrix : PyMatrix → Except MergeErr Mat
  | .sparse s => .ok s.toarray
  | .dense m => .ok m
  | .other t =>
      .error (.unsupportedType ("Error: unrecognized data type for matrix: " ++ t) 1)

/-- A producer store (shelve contents): region name to producer matrix. -/
abbrev Store := List (String × PyMatrix)

/-- The accumulator dictionary: region name to accumulated matrix, where
`none` is the `None` "not yet observed" sentinel. -/
abbrev Accum := List (String × Option Mat)

/-- First-match association-list lookup (Python `d[k]` / `k in d`). -/
def alookup {α : Type} (r : String) : List (String × α) → Option α
  | [] => none
  | p :: rest => if p.1 = r then some p.2 else alookup r rest

/-- Python `d[k] = v` for a key already present: replace its binding. -/
def accumSet (a : Accum) (r : String) (v : Option Mat) : Accum :=
  a.map (fun p => if p.1 = r then (p.1, v) else p)

/--
`add_contents_to_contigs(dat, contigs)` from `src/merger.py`:
for each `(contig, matrix)` item of the store, convert the matrix, then
insert it if the key is absent from the accumulator, else `+=` it onto the
existing value.  `contigs[contig] += matrix` with a `None` value raises
`TypeError`; numpy `+=` on mismatched shapes raises. -/
def add_contents_to_contigs : Store → Accum → Except MergeErr Accum
  | [], contigs => .ok contigs
  | p :: rest, contigs =>
    match convert_matrix p.2 with
    | .error e => .error e
    | .ok m =>
      match alookup p.1 contigs with
      | none => add_contents_to_contigs rest (contigs ++ [(p.1, some m)])
      | some none => .error .typeErrorNoneAdd
      | some (some cur) =>
        match matAdd cur m with
        | .error _ => .error .shapeMismatch
        | .ok s => add_contents_to_contigs rest (accumSet contigs p.1 (some s))

example :
    add_contents_to_contigs [("chr1", .dense [[1, 2]])] [] = .ok [("chr1", some [[1, 2]])] := by
  rfl

example :
    add_contents_to_contigs [("chr1", .dense [[1, 2]])] [("chr1", some [[1, 1]])]
      = .ok [("chr1", some [[2, 3]])] := by
  rfl

example :
    add_contents_to_contigs [("chr1", .dense [[1, 2]])] [("chr1", none)]
      = .error .typeErrorNoneAdd := by
  rfl

/-- The flag a shelve is opened with: `shelve.open(f, flag="r")` is
read-only, `shelve.open(f)` defaults to `"c"` (read-write, creating the
store when absent). -/
inductive OpenFlag where
  | readonly
  | create
deriving DecidableEq

/-- Observable actions of the loaders: a successful shelve open (with its
flag), a failed open attempt, a store merged/processed, and a sleep. -/
inductive Ev where
  | openEv (path : String) (flag : OpenFlag)
  | openFailEv (path : String)
  | mergeEv (path : String)
  | sleepEv (seconds : Nat)
deriving DecidableEq

/-- The path an event concerns, if any. -/
def Ev.path? : Ev → Option String
  | .openEv p _ => some p
  | .openFailEv p => some p
  | .mergeEv p => some p
  | .sleepEv _ => none

/-- The batch loaders' view of the filesystem: opening a path with a flag
either yields the store's contents or fails (`none` models the exception
`shelve.open` raises). -/
structure BatchEnv where
  openStore : String → OpenFlag → Option Store

/--
`load_matrices_post(infiles, contigs)` from `src/merger.py`:
```
for i, infile in enumerate(infiles):
    with shelve.open(infile) as dat:          # default flag "c"
        contigs = add_contents_to_contigs(dat, contigs)
```
No exception is caught: an open failure or a merge error aborts the run.
The returned trace records each open with its flag. -/
def load_matrices_post (env : BatchEnv) :
    List String → Accum → List Ev × Except MergeErr Accum
  | [], contigs => ([], .ok contigs)
  | infile :: rest, contigs =>
    match env.openStore infile .create with
    | none => ([.openEv infile .create], .error (.openFailure infile))
    | some dat =>
      match add_contents_to_contigs dat contigs with
      | .error e => ([.openEv infile .create], .error e)
      | .ok c2 =>
        let r := load_matrices_post env rest c2
        (.openEv infile .create :: .mergeEv infile :: r.1, r.2)

/--
`load_matrices_per_contig(infiles, contig)` from `src/merger.py`:
```
contig_name = list(contig)[0]
for i, infile in enumerate(infiles):
    with shelve.open(infile, flag="r") as dat:
        matrix = None
        if contig_name in dat:
            matrix = convert_matrix(dat["contig_name"])   # literal key!
    if matrix is not None:
        if contig[contig_name] is None: contig[contig_name] = matrix
        else: contig[contig_name] += matrix
```
Note the source reads the literal string key `"contig_name"`, not the
region variable `contig_name`; `dat["contig_name"]` raises `KeyError`
when that literal key is absent. -/
def load_matrices_per_contig_go (env : BatchEnv) (contig_name : String) :
    List String → Accum → Except MergeErr Accum
  | [], contig => .ok contig
  | infile :: rest, contig =>
    match env.openStore infile .readonly with
    | none => .error (.openFailure infile)
    | some dat =>
      let step : Except MergeErr (Option Mat) :=
        if (alookup contig_name dat).isSome then
          match alookup "contig_name" dat with
          | none => .error (.keyError "contig_name")
          | some pm => (convert_matrix pm).map some
        else .ok none
      match step with
      | .error e => .error e
      | .ok none => load_matrices_per_contig_go env contig_name rest contig
      | .ok (some matrix) =>
        match alookup contig_name contig with
        | none => .error (.keyError contig_name)
        | some none =>
          load_matrices_per_contig_go env contig_name rest
            (accumSet contig contig_name (some matrix))
        | some (some cur) =>
          match matAdd cur matrix with
          | .error _ => .error .shapeMismatch
          | .ok s =>
            load_matrices_per_contig_go env contig_name rest
              (accumSet contig contig_name (some s))

/-- Entry point of the per-contig batch loader: `list(contig)[0]` picks the
accumulator's first key (an `IndexError` on an empty dictionary). -/
def load_matrices_per_contig (env : BatchEnv) (infiles : List String) (contig : Accum) :
    Except MergeErr Accum :=
  match (contig.map Prod.fst).head? with
  | none => .error .indexError
  | some contig_name => load_matrices_per_contig_go env contig_name infiles contig

/-- The live loaders' view of the world, indexed by poll round: whether a
path exists (`os.path.isfile`), the clock (`time.time()`) at the moment a
path's guard is evaluated, the path's `os.path.getmtime`, and the outcome
of `shelve.open(path, flag="r")` (`none` models the caught `dbm.error`). -/
structure LiveEnv where
  isfile : Nat → String → Bool
  now : Nat → String → Nat
  mtime : Nat → String → Nat
  openStore : Nat → String → Option Store

/-- The quiescence guard of the live loaders for round `k` and path `f`:
`os.path.isfile(infile) and time.time() - os.path.getmtime(infile) > 300`. -/
def stableGuard (env : LiveEnv) (k : Nat) (f : String) : Bool :=
  env.isfile k f && decide (300 < env.now k f - env.mtime k f)

/--
One pass of the `for infile in fileset:` loop shared by
`load_matrices_live` and `load_matrices_per_contig_live`, parameterized by
the merge action performed on a successfully opened store.  For each path:
if the quiescence guard holds, attempt to open; a `dbm.error` is printed
and the path is retried (`continue`); on success the store is merged (any
exception the merge raises propagates out of the whole loader), closed,
and added to `processed_infiles`. -/
def liveRound (env : LiveEnv) (merge : Store → Accum → Except MergeErr Accum) (k : Nat) :
    List String → List String → Accum → List Ev × Except MergeErr (List String × Accum)
  | [], processed, contigs => ([], .ok (processed, contigs))
  | f :: rest, processed, contigs =>
    if stableGuard env k f then
      match env.openStore k f with
      | none =>
        let r := liveRound env merge k rest processed contigs
        (.openFailEv f :: r.1, r.2)
      | some dat =>
        match merge dat contigs with
        | .error e => ([.openEv f .readonly], .error e)
        | .ok c2 =>
          let r := liveRound env merge k rest (processed ++ [f]) c2
          (.openEv f .readonly :: .mergeEv f :: r.1, r.2)
    else liveRound env merge k rest processed contigs

/-- Outcome of a (fuel-bounded) run of the live polling loop: normal
return, an uncaught exception, or still looping when the fuel ran out. -/
inductive LiveOutcome where
  | done (contigs : Accum)
  | fatal (e : MergeErr)
  | running (fileset processed : List String) (contigs : Accum)
deriving DecidableEq

/--
The `while len(fileset) > 0:` loop shared by the live loaders, with fuel
bounding the number of rounds observed (the source loop is unbounded):
run one round over the current fileset, subtract the processed paths, then
`time.sleep(30)` unconditionally, and re-test the loop condition. -/
def liveLoop (env : LiveEnv) (merge : Store → Accum → Except MergeErr Accum) :
    Nat → Nat → List String → List String → Accum → List Ev × LiveOutcome
  | 0, _, fileset, processed, contigs =>
    ([], if fileset.isEmpty then .done contigs else .running fileset processed contigs)
  | fuel + 1, k, fileset, processed, contigs =>
    if fileset.isEmpty then ([], .done contigs)
    else
      let r := liveRound env merge k fileset processed contigs
      match r.2 with
      | .error e => (r.1, .fatal e)
      | .ok pc =>
        let fileset2 := fileset.filter (fun f => !(pc.1.contains f))
        let rest := liveLoop env merge fuel (k + 1) fileset2 pc.1 pc.2
        (r.1 ++ .sleepEv 30 :: rest.1, rest.2)

/--
`load_matrices_live(infiles, contigs)` from `src/merger.py`:
`fileset = set(infiles)` (modelled as `dedup`, fixing one admissible
iteration order), then poll until the fileset is empty, merging each
stable store with `add_contents_to_contigs`. -/
def load_matrices_live (env : LiveEnv) (fuel : Nat) (infiles : List String) (contigs : Accum) :
    List Ev × LiveOutcome :=
  liveLoop env add_contents_to_contigs fuel 0 infiles.dedup [] contigs

/-- The merge action of `load_matrices_per_contig_live`: the opened store
is merged only when the named region key is present in it, but the merge
then folds in the whole store via `add_contents_to_contigs`; either way
the store is closed and marked processed. -/
def perContigMerge (contig_name : String) (dat : Store) (contig : Accum) :
    Except MergeErr Accum :=
  if (alookup contig_name dat).isSome then add_contents_to_contigs dat contig
  else .ok contig

/--
`load_matrices_per_contig_live(infiles, contig)` from `src/merger.py`:
`contig_name = list(contig)[0]`, then the same polling loop as
`load_matrices_live`, merging a stable store only `if contig_name in dat`. -/
def load_matrices_per_contig_live (env : LiveEnv) (fuel : Nat)
    (infiles : List String) (contig : Accum) : List Ev × LiveOutcome :=
  match (contig.map Prod.fst).head? with
  | none => ([], .fatal .indexError)
  | some contig_name =>
    liveLoop env (perContigMerge contig_name) fuel 0 infiles.dedup [] contig

/-- Events observable on the output hdf5 container: creating a named
compressed array with its final contents, and `fout.flush()`. -/
inductive H5Ev where
  | createArrayEv (name : String) (contents : List (List (List Nat)))
  | flushEv
deriving DecidableEq

/-- numpy transpose of a 2-D array whose column count is `ncols`. -/
def transposeM (m : Mat) (ncols : Nat) : Mat :=
  (List.range ncols).map (fun j => m.map (fun row => row.getD j 0))

/-- A freshly allocated `tables.CArray` of shape `(a, b, c)` with
`UInt32Atom`: zero-filled until written. -/
def zeros3 (a b c : Nat) : List (List (List Nat)) :=
  List.replicate a (List.replicate b (List.replicate c 0))

/-- `carray[:, :, ch] = src`: write `src` into channel `ch` of the last
axis of a 3-D array (shapes agree in every use below). -/
def assignChannel (arr : List (List (List Nat))) (ch : Nat) (src : Mat) :
    List (List (List Nat)) :=
  List.zipWith (fun plane row => List.zipWith (fun cell v => cell.set ch v) plane row) arr src

/--
The per-region body of `write_to_h5` from `src/merger.py`:
```
nrows, ncols = matrix.shape
nedists = nrows // 2
wssd_contig = matrix.T
carray_empty = tables.CArray(group, contig, UInt32Atom(), (ncols, nedists, 2), ...)
carray_empty[:, :, 0] = wssd_contig[:, nedists:]
carray_empty[:, :, 1] = wssd_contig[:, 0:nedists]
```
-/
def write_to_h5_region (matrix : Mat) : List (List (List Nat)) :=
  let nrows := matrix.length
  let ncols := (matrix.headD []).length
  let nedists := nrows / 2
  let wssd_contig := transposeM matrix ncols
  let a0 := zeros3 ncols nedists 2
  let a1 := assignChannel a0 0 (wssd_contig.map (fun row => row.drop nedists))
  assignChannel a1 1 (wssd_contig.map (fun row => row.take nedists))

/-- `write_to_h5(counts, fout)`: for each accumulated region, create its
transformed compressed array and flush the container. -/
def write_to_h5 (counts : List (String × Mat)) : List H5Ev :=
  counts.flatMap (fun p => [.createArrayEv p.1 (write_to_h5_region p.2), .flushEv])

/-- A finished wssd_out_file container: its stored named 3-D arrays (the
sole top-level group's nodes, in `list_nodes` order). -/
structure H5Container where
  nodes : List (String × List (List (List Nat)))

/-- numpy-style shape of a 3-D array value. -/
def shape3 (a : List (List (List Nat))) : Nat × Nat × Nat :=
  (a.length, (a.headD []).length, ((a.headD []).headD []).length)

/--
`write_wssd_to_h5(wssd, fout)` from `src/merger.py`:
```
matrix = wssd.list_nodes("/depthAndStarts_wssd")[0]
first, second, third = matrix.shape
carray_empty = tables.CArray(group, matrix.name, UInt32Atom(), (first, second, third), ...)
carray_empty = matrix
fout.flush()
```
The final statement rebinds the local name `carray_empty`; no element of
the freshly created (zero-filled) output array is ever written. -/
def write_wssd_to_h5 (wssd : H5Container) : Except MergeErr (List H5Ev) :=
  match wssd.nodes.head? with
  | none => .error .indexError
  | some node =>
    let s := shape3 node.2
    .ok [.createArrayEv node.1 (zeros3 s.1 s.2.1 s.2.2), .flushEv]

example :
    write_to_h5_region [[1, 2, 3], [4, 5, 6]]
      = [[[4, 1]], [[5, 2]], [[6, 3]]] := by
  rfl

theorem alookup_append_some {α : Type} (r : String) (b : List (String × α)) (v : α) :
    ∀ a : List (String × α), alookup r a = some v → alookup r (a ++ b) = some v := by
  intro a
  induction a with
  | nil => intro h; simp [alookup] at h
  | cons p rest ih =>
    intro h
    by_cases hp : p.1 = r
    · simpa [alookup, hp] using h
    · simp only [alookup, hp, if_neg] at h ⊢
      exact ih h

theorem alookup_append_none {α : Type} (r : String) (b : List (String × α)) :
    ∀ a : List (String × α), alookup r a = none → alookup r (a ++ b) = alookup r b := by
  intro a
  induction a with
  | nil => intro _; rfl
  | cons p rest ih =>
    intro h
    by_cases hp : p.1 = r
    · simp [alookup, hp] at h
    · simp only [alookup, hp, if_neg] at h ⊢
      exact ih h

theorem alookup_cons {α : Type} (r : String) (p : String × α) (l : List (String × α)) :
    alookup r (p :: l) = if p.1 = r then some p.2 else alookup r l := rfl

theorem accumSet_cons (k : String) (v : Option Mat) (p : String × Option Mat) (l : Accum) :
    accumSet (p :: l) k v = (if p.1 = k then (p.1, v) else p) :: accumSet l k v := by
  simp only [accumSet, List.map_cons]

theorem alookup_accumSet_ne (k : String) (v : Option Mat) (r : String) (h : r ≠ k) :
    ∀ a : Accum, alookup r (accumSet a k v) = alookup r a := by
  intro a
  induction a with
  | nil => rfl
  | cons p rest ih =>
    rw [accumSet_cons]
    by_cases hp : p.1 = k
    · have hpr : ¬ p.1 = r := by rw [hp]; exact fun hc => h hc.symm
      rw [if_pos hp, alookup_cons, alookup_cons]
      simp only [hpr, if_neg, if_false]
      exact ih
    · rw [if_neg hp, alookup_cons, alookup_cons, ih]

theorem alookup_accumSet_self (k : String) (v : Option Mat) :
    ∀ a : Accum, (alookup k a).isSome → alookup k (accumSet a k v) = some v := by
  intro a
  induction a with
  | nil => intro h; simp [alookup] at h
  | cons p rest ih =>
    intro h
    rw [accumSet_cons]
    by_cases hp : p.1 = k
    · rw [if_pos hp, alookup_cons]
      simp only [hp, if_pos]
    · rw [alookup_cons, if_neg hp] at h
      rw [if_neg hp, alookup_cons, if_neg hp]
      exact ih h

theorem alookup_none_iff {α : Type} (r : String) :
    ∀ l : List (String × α), alookup r l = none ↔ r ∉ l.map Prod.fst := by
  intro l
  induction l with
  | nil => simp [alookup]
  | cons p rest ih =>
    rw [alookup_cons, List.map_cons]
    by_cases hp : p.1 = r
    · simp [hp]
    · have hrp : r ≠ p.1 := fun hc => hp hc.symm
      simp [hp, hrp, ih]

theorem convert_numeric (pm : PyMatrix) (h : pm.isNumeric = true) :
    convert_matrix pm = .ok pm.toDense := by
  cases pm with
  | dense m => rfl
  | sparse s => rfl
  | other t => simp [PyMatrix.isNumeric] at h

theorem matAdd_of_rowLens (a b : Mat) (h : rowLens a = rowLens b) :
    matAdd a b = .ok (matAddT a b) := by
  simp [matAdd, h]

theorem matAddT_comm (a b : Mat) : matAddT a b = matAddT b a := by
  unfold matAddT
  refine List.zipWith_comm_of_comm _ ?_ a b
  intro x y
  exact List.zipWith_comm_of_comm _ Nat.add_comm x y

/-- The accumulated value `add_contents_to_contigs` leaves for a store
entry, as a function of the accumulator's previous binding for its key. -/
def mergedValO : Option (Option Mat) → PyMatrix → Mat
  | some (some cur), pm => matAddT cur pm.toDense
  | _, pm => pm.toDense

theorem alookup_append_single_ne {α : Type} (r k : String) (w : α) (h : r ≠ k) :
    ∀ acc : List (String × α), alookup r (acc ++ [(k, w)]) = alookup r acc := by
  intro acc
  have hsingle : alookup r [(k, w)] = none := by
    rw [alookup_cons, if_neg (fun hc => h hc.symm)]
    rfl
  cases hl : alookup r acc with
  | some v => exact alookup_append_some r _ v acc hl
  | none => rw [alookup_append_none r _ acc hl, hsingle]

/--
How one call of `add_contents_to_contigs` transforms the accumulator,
region by region: under unique store keys, numeric matrices, no `None`
binding for a stored key, and per-region shape consistency, the call
succeeds; keys not in the store keep their binding, and each stored key
ends bound to the store matrix (fresh key) or the elementwise sum
(existing key). -/
theorem add_contents_char :
    ∀ (S : Store) (acc : Accum),
      (S.map Prod.fst).Nodup →
      (∀ p ∈ S, p.2.isNumeric = true) →
      (∀ p ∈ S, alookup p.1 acc ≠ some none) →
      (∀ p ∈ S, ∀ cur, alookup p.1 acc = some (some cur) →
        rowLens cur = rowLens p.2.toDense) →
      ∃ a2, add_contents_to_contigs S acc = .ok a2 ∧
        (∀ r, r ∉ S.map Prod.fst → alookup r a2 = alookup r acc) ∧
        (∀ p ∈ S, alookup p.1 a2 = some (some (mergedValO (alookup p.1 acc) p.2))) := by
  intro S
  induction S with
  | nil =>
    intro acc _ _ _ _
    exact ⟨acc, rfl, fun r _ => rfl, fun p hp => absurd hp (List.not_mem_nil p)⟩
  | cons p S' ih =>
    intro acc hnd hnum hnn hsh
    have hpnum : p.2.isNumeric = true := hnum p (List.mem_cons_self _ _)
    have hnd2 : (S'.map Prod.fst).Nodup := by
      rw [List.map_cons] at hnd
      exact hnd.of_cons
    have hpnotin : p.1 ∉ S'.map Prod.fst := by
      rw [List.map_cons] at hnd
      exact (List.nodup_cons.mp hnd).1
    have hnum2 : ∀ q ∈ S', q.2.isNumeric = true :=
      fun q hq => hnum q (List.mem_cons_of_mem _ hq)
    have hkey : ∀ q ∈ S', q.1 ≠ p.1 :=
      fun q hq hc => hpnotin (hc ▸ List.mem_map.mpr ⟨q, hq, rfl⟩)
    cases hl : alookup p.1 acc with
    | none =>
      have hstep : add_contents_to_contigs (p :: S') acc
          = add_contents_to_contigs S' (acc ++ [(p.1, some p.2.toDense)]) := by
        simp only [add_contents_to_contigs, convert_numeric p.2 hpnum, hl]
      have hnn2 : ∀ q ∈ S', alookup q.1 (acc ++ [(p.1, some p.2.toDense)]) ≠ some none := by
        intro q hq
        rw [alookup_append_single_ne q.1 p.1 _ (hkey q hq) acc]
        exact hnn q (List.mem_cons_of_mem _ hq)
      have hsh2 : ∀ q ∈ S', ∀ cur,
          alookup q.1 (acc ++ [(p.1, some p.2.toDense)]) = some (some cur) →
          rowLens cur = rowLens q.2.toDense := by
        intro q hq cur hcur
        rw [alookup_append_single_ne q.1 p.1 _ (hkey q hq) acc] at hcur
        exact hsh q (List.mem_cons_of_mem _ hq) cur hcur
      obtain ⟨a2, ha2, hoff, hin⟩ :=
        ih (acc ++ [(p.1, some p.2.toDense)]) hnd2 hnum2 hnn2 hsh2
      refine ⟨a2, by rw [hstep]; exact ha2, ?_, ?_⟩
      · intro r hr
        rw [List.map_cons, List.mem_cons] at hr
        push_neg at hr
        rw [hoff r hr.2, alookup_append_single_ne r p.1 _ hr.1 acc]
      · intro q hq
        rcases List.mem_cons.mp hq with hq | hq
        · rw [hq, hl, hoff p.1 hpnotin,
            alookup_append_none p.1 _ acc hl, alookup_cons, if_pos rfl]
          rfl
        · rw [hin q hq, alookup_append_single_ne q.1 p.1 _ (hkey q hq) acc]
    | some ov =>
      cases ov with
      | none => exact absurd hl (hnn p (List.mem_cons_self _ _))
      | some cur =>
        have hshape := hsh p (List.mem_cons_self _ _) cur hl
        have hadd : matAdd cur p.2.toDense = .ok (matAddT cur p.2.toDense) :=
          matAdd_of_rowLens _ _ hshape
        have hstep : add_contents_to_contigs (p :: S') acc
            = add_contents_to_contigs S'
                (accumSet acc p.1 (some (matAddT cur p.2.toDense))) := by
          simp only [add_contents_to_contigs, convert_numeric p.2 hpnum, hl, hadd]
        have hnn2 : ∀ q ∈ S',
            alookup q.1 (accumSet acc p.1 (some (matAddT cur p.2.toDense))) ≠ some none := by
          intro q hq
          rw [alookup_accumSet_ne p.1 _ q.1 (hkey q hq) acc]
          exact hnn q (List.mem_cons_of_mem _ hq)
        have hsh2 : ∀ q ∈ S', ∀ c,
            alookup q.1 (accumSet acc p.1 (some (matAddT cur p.2.toDense)))
              = some (some c) →
            rowLens c = rowLens q.2.toDense := by
          intro q hq c hc
          rw [alookup_accumSet_ne p.1 _ q.1 (hkey q hq) acc] at hc
          exact hsh q (List.mem_cons_of_mem _ hq) c hc
        obtain ⟨a2, ha2, hoff, hin⟩ :=
          ih (accumSet acc p.1 (some (matAddT cur p.2.toDense))) hnd2 hnum2 hnn2 hsh2
        refine ⟨a2, by rw [hstep]; exact ha2, ?_, ?_⟩
        · intro r hr
          rw [List.map_cons, List.mem_cons] at hr
          push_neg at hr
          rw [hoff r hr.2, alookup_accumSet_ne p.1 _ r hr.1 acc]
        · intro q hq
          rcases List.mem_cons.mp hq with hq | hq
          · rw [hq, hl, hoff p.1 hpnotin,
              alookup_accumSet_self p.1 _ acc (by rw [hl]; rfl)]
            rfl
          · rw [hin q hq, alookup_accumSet_ne p.1 _ q.1 (hkey q hq) acc]

theorem mem_of_alookup {α : Type} (r : String) (v : α) :
    ∀ l : List (String × α), alookup r l = some v → (r, v) ∈ l := by
  intro l
  induction l with
  | nil => intro h; simp [alookup] at h
  | cons p rest ih =>
    intro h
    rw [alookup_cons] at h
    by_cases hp : p.1 = r
    · rw [if_pos hp, Option.some.injEq] at h
      rcases p with ⟨a, b⟩
      simp only at hp h
      rw [hp, h] at *
      exact List.mem_cons_self _ _
    · rw [if_neg hp] at h
      exact List.mem_cons_of_mem _ (ih h)

theorem alookup_nil {α : Type} (r : String) : alookup r ([] : List (String × α)) = none := rfl

/-- A helper for moving from key membership to a store pair. -/
theorem exists_pair_of_mem_keys {α : Type} (r : String) (l : List (String × α))
    (h : r ∈ l.map Prod.fst) : ∃ p, p ∈ l ∧ p.1 = r := by
  rcases List.mem_map.mp h with ⟨p, hp, he⟩
  exact ⟨p, hp, he⟩

/--
C9: for two producer stores with unique region keys, numeric matrices and
per-region shape consistency, merging `S1` then `S2` into an empty
accumulator with `add_contents_to_contigs` succeeds and gives, for every
region, the same accumulated matrix as merging `S2` then `S1`
(elementwise integer sums commute).
-/
theorem claim9_merge_order_commutes
    (S1 S2 : Store)
    (hnd1 : (S1.map Prod.fst).Nodup) (hnd2 : (S2.map Prod.fst).Nodup)
    (hnum1 : ∀ p ∈ S1, p.2.isNumeric = true) (hnum2 : ∀ p ∈ S2, p.2.isNumeric = true)
    (hsh : ∀ p ∈ S1, ∀ q ∈ S2, p.1 = q.1 → rowLens p.2.toDense = rowLens q.2.toDense) :
    ∃ a1 a12 a2 a21,
      add_contents_to_contigs S1 [] = .ok a1 ∧
      add_contents_to_contigs S2 a1 = .ok a12 ∧
      add_contents_to_contigs S2 [] = .ok a2 ∧
      add_contents_to_contigs S1 a2 = .ok a21 ∧
      ∀ r, alookup r a12 = alookup r a21 := by
  obtain ⟨a1, ha1, hoff1, hin1⟩ :=
    add_contents_char S1 [] hnd1 hnum1
      (fun p _ h => by rw [alookup_nil] at h; exact Option.noConfusion h)
      (fun p _ cur h => by rw [alookup_nil] at h; exact Option.noConfusion h)
  obtain ⟨a2, ha2, hoff2, hin2⟩ :=
    add_contents_char S2 [] hnd2 hnum2
      (fun p _ h => by rw [alookup_nil] at h; exact Option.noConfusion h)
      (fun p _ cur h => by rw [alookup_nil] at h; exact Option.noConfusion h)
  have ha1val : ∀ p ∈ S1, alookup p.1 a1 = some (some p.2.toDense) := by
    intro p hp
    rw [hin1 p hp, alookup_nil]
    rfl
  have ha2val : ∀ q ∈ S2, alookup q.1 a2 = some (some q.2.toDense) := by
    intro q hq
    rw [hin2 q hq, alookup_nil]
    rfl
  have ha1off : ∀ r, r ∉ S1.map Prod.fst → alookup r a1 = none := by
    intro r hr
    rw [hoff1 r hr, alookup_nil]
  have ha2off : ∀ r, r ∉ S2.map Prod.fst → alookup r a2 = none := by
    intro r hr
    rw [hoff2 r hr, alookup_nil]
  -- second pass of each order
  obtain ⟨a12, ha12, hoff12, hin12⟩ :=
    add_contents_char S2 a1 hnd2 hnum2
      (by
        intro q hq h
        by_cases hm : q.1 ∈ S1.map Prod.fst
        · rcases exists_pair_of_mem_keys q.1 S1 hm with ⟨p, hp, he⟩
          rw [← he, ha1val p hp] at h
          simp at h
        · rw [ha1off q.1 hm] at h
          exact Option.noConfusion h)
      (by
        intro q hq cur h
        by_cases hm : q.1 ∈ S1.map Prod.fst
        · rcases exists_pair_of_mem_keys q.1 S1 hm with ⟨p, hp, he⟩
          rw [← he, ha1val p hp] at h
          have hc : p.2.toDense = cur := by
            have := (Option.some.injEq _ _).mp h
            exact (Option.some.injEq _ _).mp this
          rw [← hc]
          exact hsh p hp q hq he
        · rw [ha1off q.1 hm] at h
          exact Option.noConfusion h)
  obtain ⟨a21, ha21, hoff21, hin21⟩ :=
    add_contents_char S1 a2 hnd1 hnum1
      (by
        intro p hp h
        by_cases hm : p.1 ∈ S2.map Prod.fst
        · rcases exists_pair_of_mem_keys p.1 S2 hm with ⟨q, hq, he⟩
          rw [← he, ha2val q hq] at h
          simp at h
        · rw [ha2off p.1 hm] at h
          exact Option.noConfusion h)
      (by
        intro p hp cur h
        by_cases hm : p.1 ∈ S2.map Prod.fst
        · rcases exists_pair_of_mem_keys p.1 S2 hm with ⟨q, hq, he⟩
          rw [← he, ha2val q hq] at h
          have hc : q.2.toDense = cur := by
            have := (Option.some.injEq _ _).mp h
            exact (Option.some.injEq _ _).mp this
          rw [← hc]
          exact (hsh p hp q hq he.symm).symm
        · rw [ha2off p.1 hm] at h
          exact Option.noConfusion h)
  refine ⟨a1, a12, a2, a21, ha1, ha12, ha2, ha21, ?_⟩
  intro r
  by_cases hm1 : r ∈ S1.map Prod.fst
  · rcases exists_pair_of_mem_keys r S1 hm1 with ⟨p, hp, hep⟩
    by_cases hm2 : r ∈ S2.map Prod.fst
    · rcases exists_pair_of_mem_keys r S2 hm2 with ⟨q, hq, heq⟩
      have h12 : alookup r a12 = some (some (matAddT p.2.toDense q.2.toDense)) := by
        have := hin12 q hq
        rw [heq] at this
        rw [this, ← hep, ha1val p hp]
        rfl
      have h21 : alookup r a21 = some (some (matAddT q.2.toDense p.2.toDense)) := by
        have := hin21 p hp
        rw [hep] at this
        rw [this, ← heq, ha2val q hq]
        rfl
      rw [h12, h21, matAddT_comm]
    · have h12 : alookup r a12 = some (some p.2.toDense) := by
        rw [hoff12 r hm2, ← hep, ha1val p hp]
      have h21 : alookup r a21 = some (some p.2.toDense) := by
        have := hin21 p hp
        rw [hep] at this
        rw [this, ha2off r hm2]
        rfl
      rw [h12, h21]
  · by_cases hm2 : r ∈ S2.map Prod.fst
    · rcases exists_pair_of_mem_keys r S2 hm2 with ⟨q, hq, heq⟩
      have h12 : alookup r a12 = some (some q.2.toDense) := by
        have := hin12 q hq
        rw [heq] at this
        rw [this, ha1off r hm1]
        rfl
      have h21 : alookup r a21 = some (some q.2.toDense) := by
        rw [hoff21 r hm1, ← heq, ha2val q hq]
      rw [h12, h21]
    · rw [hoff12 r hm2, ha1off r hm1, hoff21 r hm1, ha2off r hm2]

theorem claim9_merge_order_commutes_witness :
    ∃ a1 a12 a2 a21,
      add_contents_to_contigs
        [("chr1", PyMatrix.dense [[1, 2]]), ("chrX", PyMatrix.sparse ⟨1, 2, [(0, 1, 5)]⟩)]
        [] = .ok a1 ∧
      add_contents_to_contigs [("chr1", PyMatrix.dense [[10, 20]])] a1 = .ok a12 ∧
      add_contents_to_contigs [("chr1", PyMatrix.dense [[10, 20]])] [] = .ok a2 ∧
      add_contents_to_contigs
        [("chr1", PyMatrix.dense [[1, 2]]), ("chrX", PyMatrix.sparse ⟨1, 2, [(0, 1, 5)]⟩)]
        a2 = .ok a21 ∧
      ∀ r, alookup r a12 = alookup r a21 :=
  claim9_merge_order_commutes
    [("chr1", PyMatrix.dense [[1, 2]]), ("chrX", PyMatrix.sparse ⟨1, 2, [(0, 1, 5)]⟩)]
    [("chr1", PyMatrix.dense [[10, 20]])]
    (by decide) (by decide) (by decide) (by decide) (by decide)

/-- Helper for C10: an accumulator key bound to the `None` sentinel makes
`add_contents_to_contigs` fail on any store containing that key, because
the membership test sees the key as present and `None += matrix` raises. -/
theorem add_contents_none_sentinel (r : String) (pm : PyMatrix) :
    ∀ (S : Store) (acc : Accum), (r, pm) ∈ S → alookup r acc = some none →
      ∃ e, add_contents_to_contigs S acc = .error e := by
  intro S
  induction S with
  | nil =>
    intro acc h _
    exact absurd h (List.not_mem_nil _)
  | cons p rest ih =>
    intro acc hmem hnone
    cases hc : convert_matrix p.2 with
    | error e => exact ⟨e, by simp only [add_contents_to_contigs, hc]⟩
    | ok m =>
      by_cases hpr : p.1 = r
      · have hk : alookup p.1 acc = some none := by rw [hpr]; exact hnone
        exact ⟨.typeErrorNoneAdd, by simp only [add_contents_to_contigs, hc, hk]⟩
      · rcases List.mem_cons.mp hmem with he | hmem2
        · exact absurd (congrArg Prod.fst he).symm hpr
        · cases hl : alookup p.1 acc with
          | none =>
            obtain ⟨e, he⟩ := ih (acc ++ [(p.1, some m)]) hmem2
              (alookup_append_some r _ _ acc hnone)
            exact ⟨e, by simp only [add_contents_to_contigs, hc, hl]; exact he⟩
          | some ov =>
            cases ov with
            | none => exact ⟨.typeErrorNoneAdd, by simp only [add_contents_to_contigs, hc, hl]⟩
            | some cur =>
              cases hma : matAdd cur m with
              | error u =>
                exact ⟨.shapeMismatch, by simp only [add_contents_to_contigs, hc, hl, hma]⟩
              | ok s =>
                obtain ⟨e, he⟩ := ih (accumSet acc p.1 (some s)) hmem2
                  (by
                    rw [alookup_accumSet_ne p.1 (some s) r (fun hx => hpr hx.symm) acc]
                    exact hnone)
                exact ⟨e, by simp only [add_contents_to_contigs, hc, hl, hma]; exact he⟩

/-- Concrete live environment for C10: a single path that is stable in
round 0 and opens to a store containing region "chr2". -/
def envC10 : LiveEnv :=
  ⟨fun _ _ => true, fun _ _ => 1000, fun _ _ => 0,
   fun _ _ => some [("chr2", PyMatrix.dense [[1]])]⟩

/--
C10: when a region key is present in the accumulator but bound to the
`None` sentinel, `add_contents_to_contigs` on a store containing that
region does not install the store matrix as the initial value — the merge
fails (the membership test sees the key, and addition on `None` raises) —
and consequently the per-region live loader, which starts from
`{region: None}` and delegates to `add_contents_to_contigs`, fails on the
first stable store containing the region.
-/
theorem claim10_none_sentinel_fails
    (S : Store) (acc : Accum) (r : String) (pm : PyMatrix)
    (hmem : (r, pm) ∈ S) (hnone : alookup r acc = some none) :
    (∃ e, add_contents_to_contigs S acc = .error e) ∧
    load_matrices_per_contig_live envC10 1 ["f"] [("chr2", none)]
      = ([.openEv "f" .readonly], .fatal .typeErrorNoneAdd) :=
  ⟨add_contents_none_sentinel r pm S acc hmem hnone, rfl⟩

theorem claim10_none_sentinel_fails_witness :
    (∃ e, add_contents_to_contigs [("chr2", PyMatrix.dense [[1]])] [("chr2", none)]
      = .error e) ∧
    load_matrices_per_contig_live envC10 1 ["f"] [("chr2", none)]
      = ([.openEv "f" .readonly], .fatal .typeErrorNoneAdd) :=
  claim10_none_sentinel_fails [("chr2", PyMatrix.dense [[1]])] [("chr2", none)]
    "chr2" (PyMatrix.dense [[1]]) (List.mem_singleton.mpr rfl) rfl

/--
C6: `convert_matrix` returns a dense array for exactly the two accepted
input kinds and fails otherwise: a dense array is returned unchanged, a
sparse matrix is densified to the same result as its dense equivalent,
and any other input reports the offending type name on stderr and
terminates the process with exit status 1.
-/
theorem claim6_convert_matrix_cases (pm : PyMatrix) :
    (∀ m, pm = .dense m → convert_matrix pm = .ok m) ∧
    (∀ s, pm = .sparse s →
      convert_matrix pm = .ok s.toarray ∧
      convert_matrix (.dense s.toarray) = .ok s.toarray) ∧
    (∀ t, pm = .other t →
      convert_matrix pm
        = .error (.unsupportedType ("Error: unrecognized data type for matrix: " ++ t) 1)) := by
  refine ⟨?_, ?_, ?_⟩
  · intro m h
    rw [h]
    rfl
  · intro s h
    rw [h]
    exact ⟨rfl, rfl⟩
  · intro t h
    rw [h]
    rfl

theorem claim6_convert_matrix_cases_witness :
    convert_matrix (.dense [[3]]) = .ok [[3]] ∧
    (convert_matrix (.sparse ⟨1, 1, [(0, 0, 7)]⟩)
        = .ok (SparseMat.toarray ⟨1, 1, [(0, 0, 7)]⟩) ∧
      convert_matrix (.dense (SparseMat.toarray ⟨1, 1, [(0, 0, 7)]⟩))
        = .ok (SparseMat.toarray ⟨1, 1, [(0, 0, 7)]⟩)) ∧
    convert_matrix (.other "lil_matrix")
      = .error (.unsupportedType ("Error: unrecognized data type for matrix: " ++ "lil_matrix") 1) :=
  ⟨(claim6_convert_matrix_cases (.dense [[3]])).1 [[3]] rfl,
   (claim6_convert_matrix_cases (.sparse ⟨1, 1, [(0, 0, 7)]⟩)).2.1 ⟨1, 1, [(0, 0, 7)]⟩ rfl,
   (claim6_convert_matrix_cases (.other "lil_matrix")).2.2 "lil_matrix" rfl⟩

/-- Concrete batch environment for C1: every path opens (under any flag)
to a store holding region "chr2" with matrix `[[1]]`. -/
def envC1 : BatchEnv := ⟨fun _ _ => some [("chr2", PyMatrix.dense [[1]])]⟩

/--
C1 (code bug): the per-region batch loader does NOT read the matrix
stored under the region key itself: `load_matrices_per_contig` reads the
literal key `"contig_name"` (`dat["contig_name"]`), so on a store that
contains region "chr2" (but no literal `"contig_name"` key) it raises
`KeyError` instead of producing the whole-accumulator batch merge
restricted to "chr2", which succeeds with the store's matrix.
-/
theorem claim1_per_contig_reads_literal_key :
    load_matrices_per_contig envC1 ["f"] [("chr2", none)]
      = .error (.keyError "contig_name") ∧
    (load_matrices_post envC1 ["f"] []).2 = .ok [("chr2", some [[1]])] :=
  ⟨rfl, rfl⟩

/--
C2 (code bug): the container-merge path allocates an output array with
the input array's name and shape, but never copies its contents: the
assignment `carray_empty = matrix` rebinds a local variable, so the
output array stays zero-filled and is not element-for-element equal to
the input array.
-/
theorem claim2_wssd_copy_writes_zeros :
    write_wssd_to_h5 ⟨[("chr1", [[[5]]])]⟩
      = .ok [.createArrayEv "chr1" [[[0]]], .flushEv] ∧
    ([[[0]]] : List (List (List Nat))) ≠ [[[5]]] :=
  ⟨rfl, by decide⟩

/-- Every shelve open performed by the batch loader `load_matrices_post`
uses the default create flag (`shelve.open(infile)`), not read-only. -/
theorem load_matrices_post_flags (env : BatchEnv) :
    ∀ (files : List String) (contigs : Accum) (p : String) (fl : OpenFlag),
      Ev.openEv p fl ∈ (load_matrices_post env files contigs).1 → fl = .create := by
  intro files
  induction files with
  | nil =>
    intro contigs p fl h
    simp [load_matrices_post] at h
  | cons f rest ih =>
    intro contigs p fl h
    cases ho : env.openStore f .create with
    | none =>
      simp only [load_matrices_post, ho, List.mem_singleton] at h
      exact (Ev.openEv.injEq _ _ _ _).mp h |>.2
    | some dat =>
      cases hm : add_contents_to_contigs dat contigs with
      | error e =>
        simp only [load_matrices_post, ho, hm, List.mem_singleton] at h
        exact (Ev.openEv.injEq _ _ _ _).mp h |>.2
      | ok c2 =>
        simp only [load_matrices_post, ho, hm, List.mem_cons] at h
        rcases h with h | h | h
        · exact (Ev.openEv.injEq _ _ _ _).mp h |>.2
        · exact absurd h (by simp)
        · exact ih c2 p fl h

/--
C5 (amended): in batch loading, an open failure propagates out of
`load_matrices_post` immediately (the failing store is attempted once, no
retry, nothing further is processed) — but the loader does not open the
stores read-only: every open uses shelve's default create flag, which
would create a missing store on disk rather than fail.
-/
theorem claim5_batch_open_failure_aborts
    (env : BatchEnv) (f : String) (rest : List String) (contigs : Accum)
    (h : env.openStore f .create = none) :
    load_matrices_post env (f :: rest) contigs
      = ([.openEv f .create], .error (.openFailure f)) ∧
    (∀ p fl, Ev.openEv p fl ∈ (load_matrices_post env (f :: rest) contigs).1 →
      fl = .create) := by
  constructor
  · simp only [load_matrices_post, h]
  · exact fun p fl hm => load_matrices_post_flags env (f :: rest) contigs p fl hm

/-- Concrete batch environment for C5: a store that always opens. -/
def envC5 : BatchEnv := ⟨fun _ _ => some [("chr2", PyMatrix.dense [[1]])]⟩

/-- Concrete batch environment for C5's witness: opening always fails. -/
def envC5fail : BatchEnv := ⟨fun _ _ => none⟩

theorem claim5_batch_open_failure_aborts_witness :
    load_matrices_post envC5fail ["f"] [] = ([.openEv "f" .create], .error (.openFailure "f")) ∧
    (∀ p fl, Ev.openEv p fl ∈ (load_matrices_post envC5fail ["f"] []).1 → fl = .create) :=
  claim5_batch_open_failure_aborts envC5fail "f" [] [] rfl

/-- `true` when every open event in a trace is read-only: the property the
claim asserts of batch loading ("only ever reads producer stores"). -/
def opensReadOnlyB (tr : List Ev) : Bool :=
  tr.all (fun e => match e with
    | .openEv _ fl => fl == OpenFlag.readonly
    | _ => true)

/--
C5 counterexample: on a concrete single-store run, `load_matrices_post`
performs an open that is not read-only (it uses shelve's default create
flag), refuting "the loader only ever reads producer stores, never
creating or modifying any store on disk".
-/
theorem claim5_counterexample :
    opensReadOnlyB (load_matrices_post envC5 ["f"] []).1 = false := rfl

/-- The polling loop on an empty fileset returns at once: no round is run,
no sleep happens. -/
theorem liveLoop_nil (env : LiveEnv) (merge : Store → Accum → Except MergeErr Accum) :
    ∀ fuel k processed contigs,
      liveLoop env merge fuel k [] processed contigs = ([], .done contigs) := by
  intro fuel k processed contigs
  cases fuel <;> simp [liveLoop]

/-- One full poll round over a single pending path that is stable and
opens successfully: the merge outcome decides the loop's result, and on
success the round ends with the unconditional 30-second sleep. -/
theorem liveLoop_one_file (env : LiveEnv) (merge : Store → Accum → Except MergeErr Accum)
    (f : String) (processed : List String) (acc : Accum) (dat : Store)
    (hguard : stableGuard env 0 f = true) (hopen : env.openStore 0 f = some dat) :
    liveLoop env merge 1 0 [f] processed acc
      = match merge dat acc with
        | .ok a => ([.openEv f .readonly, .mergeEv f, .sleepEv 30], .done a)
        | .error e => ([.openEv f .readonly], .fatal e) := by
  cases hm : merge dat acc with
  | error e => simp [liveLoop, liveRound, hguard, hopen, hm]
  | ok a => simp [liveLoop, liveRound, hguard, hopen, hm]

/--
C4 (amended): whenever `load_matrices_per_contig_live` successfully opens
a stable store, it merges only if the named region key is present in the
store (a store lacking the key leaves the accumulator unchanged, though
the store is still marked processed); but when the key is present the
whole store is folded in via `add_contents_to_contigs`, so entries for
regions other than the named one do change the accumulator.
-/
theorem claim4_per_contig_live_merges_whole_store
    (env : LiveEnv) (f cn : String) (acc : Accum) (dat : Store)
    (hhead : (acc.map Prod.fst).head? = some cn)
    (hguard : stableGuard env 0 f = true)
    (hopen : env.openStore 0 f = some dat) :
    (alookup cn dat = none →
      load_matrices_per_contig_live env 1 [f] acc
        = ([.openEv f .readonly, .mergeEv f, .sleepEv 30], .done acc)) ∧
    ((alookup cn dat).isSome →
      load_matrices_per_contig_live env 1 [f] acc
        = match add_contents_to_contigs dat acc with
          | .ok a => ([.openEv f .readonly, .mergeEv f, .sleepEv 30], .done a)
          | .error e => ([.openEv f .readonly], .fatal e)) := by
  have hded : ([f] : List String).dedup = [f] := by simp
  constructor
  · intro hnone
    have hmerge : perContigMerge cn dat acc = .ok acc := by
      simp [perContigMerge, hnone]
    have h1 := liveLoop_one_file env (perContigMerge cn) f [] acc dat hguard hopen
    rw [hmerge] at h1
    simp only [load_matrices_per_contig_live, hhead, hded]
    exact h1
  · intro hsome
    have hmerge : perContigMerge cn dat acc = add_contents_to_contigs dat acc := by
      simp [perContigMerge, hsome]
    have h1 := liveLoop_one_file env (perContigMerge cn) f [] acc dat hguard hopen
    rw [hmerge] at h1
    simp only [load_matrices_per_contig_live, hhead, hded]
    exact h1

/-- Concrete live environment for C4: one path, stable in round 0, whose
store holds the named region "chr2" and another region "chr3". -/
def envC4 : LiveEnv :=
  ⟨fun _ _ => true, fun _ _ => 1000, fun _ _ => 0,
   fun _ _ => some [("chr2", PyMatrix.dense [[2]]), ("chr3", PyMatrix.dense [[5]])]⟩

theorem claim4_per_contig_live_merges_whole_store_witness :
    (alookup "chr2" [("chr2", PyMatrix.dense [[2]]), ("chr3", PyMatrix.dense [[5]])] = none →
      load_matrices_per_contig_live envC4 1 ["f"] [("chr2", some [[1]])]
        = ([.openEv "f" .readonly, .mergeEv "f", .sleepEv 30], .done [("chr2", some [[1]])])) ∧
    ((alookup "chr2"
        [("chr2", PyMatrix.dense [[2]]), ("chr3", PyMatrix.dense [[5]])]).isSome →
      load_matrices_per_contig_live envC4 1 ["f"] [("chr2", some [[1]])]
        = match add_contents_to_contigs
            [("chr2", PyMatrix.dense [[2]]), ("chr3", PyMatrix.dense [[5]])]
            [("chr2", some [[1]])] with
          | .ok a => ([.openEv "f" .readonly, .mergeEv "f", .sleepEv 30], .done a)
          | .error e => ([.openEv "f" .readonly], .fatal e)) :=
  claim4_per_contig_live_merges_whole_store envC4 "f" "chr2" [("chr2", some [[1]])]
    [("chr2", PyMatrix.dense [[2]]), ("chr3", PyMatrix.dense [[5]])] rfl rfl rfl

/--
C4 counterexample: with the accumulator `{"chr2": [[1]]}` and a stable
store `{"chr2": [[2]], "chr3": [[5]]}`, the per-region live loader ends
with an accumulator that has gained the key "chr3" (bound to the store's
matrix), refuting "entries for regions other than the named one leave the
accumulator's keys and values unchanged".
-/
theorem claim4_counterexample :
    alookup "chr3" ([("chr2", some [[1]])] : Accum) = none ∧
    (load_matrices_per_contig_live envC4 1 ["f"] [("chr2", some [[1]])]).2
      = .done [("chr2", some [[3]]), ("chr3", some [[5]])] ∧
    alookup "chr3" ([("chr2", some [[3]]), ("chr3", some [[5]])] : Accum)
      = some (some [[5]]) :=
  ⟨rfl, rfl, rfl⟩

/-- A successful fuel-bounded run of the polling loop that started with a
non-empty fileset always ends its trace with the unconditional
end-of-round 30-second sleep. -/
theorem liveLoop_done_ends_with_sleep (env : LiveEnv)
    (merge : Store → Accum → Except MergeErr Accum) :
    ∀ (fuel k : Nat) (files processed : List String) (contigs : Accum) (c2 : Accum),
      files ≠ [] →
      (liveLoop env merge fuel k files processed contigs).2 = .done c2 →
      ∃ t, (liveLoop env merge fuel k files processed contigs).1 = t ++ [.sleepEv 30] := by
  intro fuel
  induction fuel with
  | zero =>
    intro k files processed contigs c2 hne h
    have hfe : files.isEmpty = false := by
      cases files with
      | nil => exact absurd rfl hne
      | cons a l => rfl
    simp only [liveLoop, hfe] at h
    exact absurd h (by simp)
  | succ n ih =>
    intro k files processed contigs c2 hne h
    have hfe : files.isEmpty = false := by
      cases files with
      | nil => exact absurd rfl hne
      | cons a l => rfl
    cases hr : (liveRound env merge k files processed contigs).2 with
    | error e =>
      simp only [liveLoop, hfe, hr] at h
      exact absurd h (by simp)
    | ok pc =>
      simp only [liveLoop, hfe, hr] at h ⊢
      by_cases h2 : files.filter (fun g => !(pc.1.contains g)) = []
      · rw [h2] at h ⊢
        rw [liveLoop_nil env merge n (k + 1) pc.1 pc.2] at h ⊢
        exact ⟨(liveRound env merge k files processed contigs).1, rfl⟩
      · obtain ⟨t, ht⟩ := ih (k + 1) (files.filter (fun g => !(pc.1.contains g)))
          pc.1 pc.2 c2 h2 h
        refine ⟨(liveRound env merge k files processed contigs).1 ++ .sleepEv 30 :: t, ?_⟩
        rw [ht]
        simp [List.append_assoc]

/--
C8 (amended): `load_matrices_live` returns exactly when the pending set is
empty — on an empty input it returns at once, with no round and no sleep —
but when it does process stores, every executed round ends with the fixed
30-second sleep unconditionally: a successful run over a non-empty input
has a trace ending in a sleep event, i.e. a sleep also occurs after the
final store has been processed.
-/
theorem claim8_returns_on_empty_sleeps_every_round
    (env : LiveEnv) (fuel : Nat) (infiles : List String) (contigs c2 : Accum) :
    load_matrices_live env fuel [] contigs = ([], .done contigs) ∧
    (infiles ≠ [] → (load_matrices_live env fuel infiles contigs).2 = .done c2 →
      ∃ t, (load_matrices_live env fuel infiles contigs).1 = t ++ [.sleepEv 30]) := by
  constructor
  · show liveLoop env add_contents_to_contigs fuel 0 (List.dedup []) [] contigs = _
    rw [List.dedup_nil]
    exact liveLoop_nil env add_contents_to_contigs fuel 0 [] contigs
  · intro hne hdone
    have hd : infiles.dedup ≠ [] := fun hc => hne ((List.dedup_eq_nil infiles).mp hc)
    exact liveLoop_done_ends_with_sleep env add_contents_to_contigs fuel 0
      infiles.dedup [] contigs c2 hd hdone

/-- Concrete live environment for C8: one path, stable in round 0, store
holding region "chr1". -/
def envC8 : LiveEnv :=
  ⟨fun _ _ => true, fun _ _ => 1000, fun _ _ => 0,
   fun _ _ => some [("chr1", PyMatrix.dense [[1]])]⟩

theorem claim8_returns_on_empty_sleeps_every_round_witness :
    load_matrices_live envC8 1 [] [] = ([], .done []) ∧
    (∃ t, (load_matrices_live envC8 1 ["f"] []).1 = t ++ [.sleepEv 30]) :=
  ⟨(claim8_returns_on_empty_sleeps_every_round envC8 1 ["f"] [] [("chr1", some [[1]])]).1,
   (claim8_returns_on_empty_sleeps_every_round envC8 1 ["f"] [] [("chr1", some [[1]])]).2
     (by simp) rfl⟩

/--
C8 counterexample: on a concrete run with a single immediately-stable
store, the whole run completes (`done`), yet the trace's last event is
the 30-second sleep — the sleep happens after the final store has been
processed and the pending set has become empty, refuting "no sleep occurs
after the final store has been processed".
-/
theorem claim8_counterexample :
    (load_matrices_live envC8 1 ["f"] []).2 = .done [("chr1", some [[1]])] ∧
    (load_matrices_live envC8 1 ["f"] []).1
      = [.openEv "f" .readonly, .mergeEv "f", .sleepEv 30] ∧
    (load_matrices_live envC8 1 ["f"] []).1.getLast? = some (.sleepEv 30) :=
  ⟨rfl, rfl, rfl⟩

/-- Number of times a given path is recorded as merged in a trace. -/
def countMerges (f : String) : List Ev → Nat
  | [] => 0
  | e :: rest => (if e = Ev.mergeEv f then 1 else 0) + countMerges f rest

theorem countMerges_append (f : String) :
    ∀ a b : List Ev, countMerges f (a ++ b) = countMerges f a + countMerges f b := by
  intro a b
  induction a with
  | nil => simp [countMerges]
  | cons e rest ih => simp [countMerges, ih, Nat.add_assoc]

/-- A path not in the visited list produces no merge event in a round. -/
theorem liveRound_count_not_mem (env : LiveEnv)
    (merge : Store → Accum → Except MergeErr Accum) (k : Nat) (f : String) :
    ∀ (files processed : List String) (contigs : Accum), f ∉ files →
      countMerges f (liveRound env merge k files processed contigs).1 = 0 := by
  intro files
  induction files with
  | nil =>
    intro processed contigs _
    rfl
  | cons g rest ih =>
    intro processed contigs hnm
    have hgf : ¬ (g = f) := fun hc => hnm (hc ▸ List.mem_cons_self g rest)
    have hnm2 : f ∉ rest := fun hc => hnm (List.mem_cons_of_mem _ hc)
    by_cases hg : stableGuard env k g = true
    · cases ho : env.openStore k g with
      | none => simp [liveRound, hg, ho, countMerges, ih processed contigs hnm2]
      | some dat =>
        cases hm : merge dat contigs with
        | error e => simp [liveRound, hg, ho, hm, countMerges]
        | ok c2 =>
          simp [liveRound, hg, ho, hm, countMerges, hgf,
            ih (processed ++ [g]) c2 hnm2]
    · simp [liveRound, hg, ih processed contigs hnm2]

/-- The starting processed set survives into a round's result. -/
theorem liveRound_processed_mono (env : LiveEnv)
    (merge : Store → Accum → Except MergeErr Accum) (k : Nat) (x : String) :
    ∀ (files processed : List String) (contigs : Accum) (pc : List String × Accum),
      (liveRound env merge k files processed contigs).2 = .ok pc →
      x ∈ processed → x ∈ pc.1 := by
  intro files
  induction files with
  | nil =>
    intro processed contigs pc hok hx
    simp only [liveRound, Except.ok.injEq] at hok
    rw [← hok]
    exact hx
  | cons g rest ih =>
    intro processed contigs pc hok hx
    by_cases hg : stableGuard env k g = true
    · cases ho : env.openStore k g with
      | none =>
        simp only [liveRound, hg, if_pos, ho] at hok
        exact ih processed contigs pc hok hx
      | some dat =>
        cases hm : merge dat contigs with
        | error e => simp [liveRound, hg, ho, hm] at hok
        | ok c2 =>
          simp only [liveRound, hg, if_pos, ho, hm] at hok
          exact ih (processed ++ [g]) c2 pc hok (List.mem_append_left _ hx)
    · simp only [liveRound, hg, if_neg, if_false] at hok
      exact ih processed contigs pc hok hx

/-- A path merged during a round ends up in the round's processed set. -/
theorem liveRound_merged_processed (env : LiveEnv)
    (merge : Store → Accum → Except MergeErr Accum) (k : Nat) (f : String) :
    ∀ (files processed : List String) (contigs : Accum) (pc : List String × Accum),
      (liveRound env merge k files processed contigs).2 = .ok pc →
      1 ≤ countMerges f (liveRound env merge k files processed contigs).1 →
      f ∈ pc.1 := by
  intro files
  induction files with
  | nil =>
    intro processed contigs pc _ hc
    simp [liveRound, countMerges] at hc
  | cons g rest ih =>
    intro processed contigs pc hok hc
    by_cases hg : stableGuard env k g = true
    · cases ho : env.openStore k g with
      | none =>
        simp only [liveRound, hg, if_pos, ho] at hok hc
        rw [countMerges] at hc
        simp only [reduceCtorEq, if_false, Nat.zero_add] at hc
        exact ih processed contigs pc hok hc
      | some dat =>
        cases hm : merge dat contigs with
        | error e => simp [liveRound, hg, ho, hm] at hok
        | ok c2 =>
          simp only [liveRound, hg, if_pos, ho, hm] at hok hc
          by_cases hgf : g = f
          · exact liveRound_processed_mono env merge k f rest (processed ++ [g]) c2 pc hok
              (by rw [hgf]; exact List.mem_append_right _ (List.mem_singleton.mpr rfl))
          · rw [countMerges, countMerges] at hc
            simp only [reduceCtorEq, if_false, Nat.zero_add, Ev.mergeEv.injEq, hgf,
              Nat.add_zero] at hc
            exact ih (processed ++ [g]) c2 pc hok hc
    · simp only [liveRound, hg, if_neg, if_false] at hok hc
      exact ih processed contigs pc hok hc

/-- A round over a duplicate-free fileset merges any given path at most
once. -/
theorem liveRound_count_le_one (env : LiveEnv)
    (merge : Store → Accum → Except MergeErr Accum) (k : Nat) (f : String) :
    ∀ (files processed : List String) (contigs : Accum), files.Nodup →
      countMerges f (liveRound env merge k files processed contigs).1 ≤ 1 := by
  intro files
  induction files with
  | nil =>
    intro processed contigs _
    simp [liveRound, countMerges]
  | cons g rest ih =>
    intro processed contigs hnd
    have hnd2 : rest.Nodup := hnd.of_cons
    have hgrest : g ∉ rest := (List.nodup_cons.mp hnd).1
    by_cases hg : stableGuard env k g = true
    · cases ho : env.openStore k g with
      | none =>
        simp only [liveRound, hg, if_pos, ho]
        rw [countMerges]
        simp only [reduceCtorEq, if_false, Nat.zero_add]
        exact ih processed contigs hnd2
      | some dat =>
        cases hm : merge dat contigs with
        | error e => simp [liveRound, hg, ho, hm, countMerges]
        | ok c2 =>
          simp only [liveRound, hg, if_pos, ho, hm]
          rw [countMerges, countMerges]
          simp only [reduceCtorEq, if_false, Nat.zero_add]
          by_cases hgf : g = f
          · subst hgf
            have h0 : countMerges g (liveRound env merge k rest (processed ++ [g]) c2).1 = 0 :=
              liveRound_count_not_mem env merge k g rest (processed ++ [g]) c2 hgrest
            simp [h0]
          · simp only [Ev.mergeEv.injEq, hgf, if_false, Nat.zero_add]
            exact ih (processed ++ [g]) c2 hnd2
    · simp only [liveRound, hg, if_neg, if_false]
      exact ih processed contigs hnd2

/-- A path absent from the pending fileset is never merged by the loop:
the fileset only ever shrinks. -/
theorem liveLoop_count_not_mem (env : LiveEnv)
    (merge : Store → Accum → Except MergeErr Accum) (f : String) :
    ∀ (fuel k : Nat) (files processed : List String) (contigs : Accum), f ∉ files →
      countMerges f (liveLoop env merge fuel k files processed contigs).1 = 0 := by
  intro fuel
  induction fuel with
  | zero =>
    intro k files processed contigs _
    rfl
  | succ n ih =>
    intro k files processed contigs hnm
    cases hfe : files.isEmpty with
    | true => simp [liveLoop, hfe, countMerges]
    | false =>
      cases hr : (liveRound env merge k files processed contigs).2 with
      | error e =>
        simp only [liveLoop, hfe, Bool.false_eq_true, if_false, hr]
        exact liveRound_count_not_mem env merge k f files processed contigs hnm
      | ok pc =>
        simp only [liveLoop, hfe, Bool.false_eq_true, if_false, hr]
        rw [countMerges_append, countMerges]
        simp only [reduceCtorEq, if_false, Nat.zero_add]
        rw [liveRound_count_not_mem env merge k f files processed contigs hnm,
          ih (k + 1) (files.filter (fun g => !(pc.1.contains g))) pc.1 pc.2
            (fun hc => hnm (List.mem_of_mem_filter hc))]

/-- C7 core invariant: starting from a duplicate-free pending set, the
polling loop merges every path at most once across the whole run. -/
theorem liveLoop_count_le_one (env : LiveEnv)
    (merge : Store → Accum → Except MergeErr Accum) (f : String) :
    ∀ (fuel k : Nat) (files processed : List String) (contigs : Accum), files.Nodup →
      countMerges f (liveLoop env merge fuel k files processed contigs).1 ≤ 1 := by
  intro fuel
  induction fuel with
  | zero =>
    intro k files processed contigs _
    exact Nat.zero_le 1
  | succ n ih =>
    intro k files processed contigs hnd
    cases hfe : files.isEmpty with
    | true => simp [liveLoop, hfe, countMerges]
    | false =>
      cases hr : (liveRound env merge k files processed contigs).2 with
      | error e =>
        simp only [liveLoop, hfe, Bool.false_eq_true, if_false, hr]
        exact liveRound_count_le_one env merge k f files processed contigs hnd
      | ok pc =>
        simp only [liveLoop, hfe, Bool.false_eq_true, if_false, hr]
        rw [countMerges_append, countMerges]
        simp only [reduceCtorEq, if_false, Nat.zero_add]
        cases hc : countMerges f (liveRound env merge k files processed contigs).1 with
        | zero =>
          rw [Nat.zero_add]
          exact ih (k + 1) (files.filter (fun g => !(pc.1.contains g))) pc.1 pc.2
            (hnd.filter _)
        | succ m =>
          have hmem : f ∈ pc.1 :=
            liveRound_merged_processed env merge k f files processed contigs pc hr
              (by rw [hc]; exact Nat.succ_le_succ (Nat.zero_le m))
          have hnot2 : f ∉ files.filter (fun g => !(pc.1.contains g)) := by
            intro hin
            have hb := List.of_mem_filter hin
            have hcont : pc.1.contains f = true := List.elem_eq_true_of_mem hmem
            rw [hcont] at hb
            simp at hb
          rw [liveLoop_count_not_mem env merge f n (k + 1)
            (files.filter (fun g => !(pc.1.contains g))) pc.1 pc.2 hnot2, Nat.add_zero,
            ← hc]
          exact liveRound_count_le_one env merge k f files processed contigs hnd

/-- A path whose quiescence guard fails in a round is not touched at all
in that round: no event of the round concerns it. -/
theorem liveRound_no_touch (env : LiveEnv)
    (merge : Store → Accum → Except MergeErr Accum) (k : Nat) (f : String)
    (hguard : stableGuard env k f = false) :
    ∀ (files processed : List String) (contigs : Accum),
      ∀ ev ∈ (liveRound env merge k files processed contigs).1, Ev.path? ev ≠ some f := by
  intro files
  induction files with
  | nil =>
    intro processed contigs ev hev
    simp [liveRound] at hev
  | cons g rest ih =>
    intro processed contigs ev hev
    by_cases hgf : g = f
    · rw [hgf] at hev
      simp only [liveRound, hguard, Bool.false_eq_true, if_false] at hev
      exact ih processed contigs ev hev
    · by_cases hg : stableGuard env k g = true
      · cases ho : env.openStore k g with
        | none =>
          simp only [liveRound, hg, if_pos, ho, List.mem_cons] at hev
          rcases hev with hev | hev
          · rw [hev]
            simp [Ev.path?, hgf]
          · exact ih processed contigs ev hev
        | some dat =>
          cases hm : merge dat contigs with
          | error e =>
            simp only [liveRound, hg, if_pos, ho, hm, List.mem_singleton] at hev
            rw [hev]
            simp [Ev.path?, hgf]
          | ok c2 =>
            simp only [liveRound, hg, if_pos, ho, hm, List.mem_cons] at hev
            rcases hev with hev | hev | hev
            · rw [hev]
              simp [Ev.path?, hgf]
            · rw [hev]
              simp [Ev.path?, hgf]
            · exact ih (processed ++ [g]) c2 ev hev
      · simp only [liveRound, hg, if_neg, if_false] at hev
        exact ih processed contigs ev hev

/--
C7: in any poll round of the live merge, a pending store whose file does
not exist — or whose modification time is within the 300-second
quiescence window of the clock at its check — is never opened, read or
otherwise touched in that round; and across a whole `load_matrices_live`
run each store is merged at most once (once merged it moves to the
processed set and its path is dropped from the pending set).
-/
theorem claim7_quiescence_guard_and_merge_at_most_once
    (env : LiveEnv) (k : Nat) (files processed : List String) (contigs : Accum)
    (f : String) (fuel : Nat) (infiles : List String) (c0 : Accum) :
    ((env.isfile k f = false ∨ env.now k f - env.mtime k f ≤ 300) →
      ∀ ev ∈ (liveRound env add_contents_to_contigs k files processed contigs).1,
        Ev.path? ev ≠ some f) ∧
    countMerges f (load_matrices_live env fuel infiles c0).1 ≤ 1 := by
  constructor
  · intro hcond
    have hguard : stableGuard env k f = false := by
      rcases hcond with h1 | h2
      · simp [stableGuard, h1]
      · have hnl : ¬ (300 < env.now k f - env.mtime k f) := Nat.not_lt.mpr h2
        simp [stableGuard, hnl]
    exact liveRound_no_touch env add_contents_to_contigs k f hguard files processed contigs
  · exact liveLoop_count_le_one env add_contents_to_contigs f fuel 0
      infiles.dedup [] c0 (List.nodup_dedup infiles)

/-- Concrete live environment for C7's witness: the path does not exist. -/
def envC7 : LiveEnv := ⟨fun _ _ => false, fun _ _ => 0, fun _ _ => 0, fun _ _ => none⟩

theorem claim7_quiescence_guard_and_merge_at_most_once_witness :
    (∀ ev ∈ (liveRound envC7 add_contents_to_contigs 0 ["g"] [] []).1,
      Ev.path? ev ≠ some "g") ∧
    countMerges "g" (load_matrices_live envC7 1 ["g"] []).1 ≤ 1 :=
  ⟨(claim7_quiescence_guard_and_merge_at_most_once envC7 0 ["g"] [] [] "g" 1 ["g"] []).1
     (Or.inl rfl),
   (claim7_quiescence_guard_and_merge_at_most_once envC7 0 ["g"] [] [] "g" 1 ["g"] []).2⟩

/-- Slicing the transpose by columns `[n:]` is transposing the row slice
`[n:]` (numpy `matrix.T[:, n:] == matrix[n:, :].T`). -/
theorem transposeM_map_drop (m : Mat) (n c : Nat) :
    (transposeM m c).map (fun row => row.drop n) = transposeM (m.drop n) c := by
  unfold transposeM
  rw [List.map_map]
  exact List.map_congr_left (fun j _ => (List.map_drop _ m n).symm)

/-- Slicing the transpose by columns `[0:n]` is transposing the row slice
`[0:n]`. -/
theorem transposeM_map_take (m : Mat) (n c : Nat) :
    (transposeM m c).map (fun row => row.take n) = transposeM (m.take n) c := by
  unfold transposeM
  rw [List.map_map]
  exact List.map_congr_left (fun j _ => (List.map_take _ m n).symm)

theorem transposeM_length (m : Mat) (c : Nat) : (transposeM m c).length = c := by
  unfold transposeM
  rw [List.length_map, List.length_range]

theorem transposeM_row_length (m : Mat) (c : Nat) :
    ∀ row ∈ transposeM m c, row.length = m.length := by
  intro row hrow
  unfold transposeM at hrow
  rcases List.mem_map.mp hrow with ⟨j, _, he⟩
  rw [← he, List.length_map]

/-- Writing channel 0 then channel 1 of a freshly allocated
`(B, 2)`-shaped plane produces exactly the pairing of the two sources. -/
theorem plane_assign :
    ∀ (d s : List Nat), d.length = s.length →
      List.zipWith (fun cell v => cell.set 1 v)
        (List.zipWith (fun cell v => cell.set 0 v)
          (List.replicate d.length (List.replicate 2 0)) d) s
        = List.zipWith (fun x y => [x, y]) d s := by
  intro d
  induction d with
  | nil =>
    intro s _
    rfl
  | cons x d2 ih =>
    intro s hlen
    cases s with
    | nil => simp at hlen
    | cons y s2 =>
      have hl2 : d2.length = s2.length := by
        rw [List.length_cons, List.length_cons] at hlen
        omega
      rw [List.length_cons, List.replicate_succ _ _]
      simp only [List.zipWith_cons_cons]
      rw [ih s2 hl2]
      rfl

theorem zip_pair_map_getD0 :
    ∀ (d s : List Nat), d.length = s.length →
      (List.zipWith (fun x y => [x, y]) d s).map (fun cell => cell.getD 0 0) = d := by
  intro d
  induction d with
  | nil =>
    intro s _
    rfl
  | cons x d2 ih =>
    intro s hlen
    cases s with
    | nil => simp at hlen
    | cons y s2 =>
      simp only [List.zipWith_cons_cons, List.map_cons]
      rw [ih s2 (by rw [List.length_cons, List.length_cons] at hlen; omega)]
      rfl

theorem zip_pair_map_getD1 :
    ∀ (d s : List Nat), d.length = s.length →
      (List.zipWith (fun x y => [x, y]) d s).map (fun cell => cell.getD 1 0) = s := by
  intro d
  induction d with
  | nil =>
    intro s hlen
    cases s with
    | nil => rfl
    | cons y s2 => simp at hlen
  | cons x d2 ih =>
    intro s hlen
    cases s with
    | nil => simp at hlen
    | cons y s2 =>
      simp only [List.zipWith_cons_cons, List.map_cons]
      rw [ih s2 (by rw [List.length_cons, List.length_cons] at hlen; omega)]
      rfl

theorem zip_pair_cell_length :
    ∀ (d s : List Nat), ∀ cell ∈ List.zipWith (fun x y => [x, y]) d s, cell.length = 2 := by
  intro d
  induction d with
  | nil =>
    intro s cell hc
    simp at hc
  | cons x d2 ih =>
    intro s cell hc
    cases s with
    | nil => simp at hc
    | cons y s2 =>
      simp only [List.zipWith_cons_cons, List.mem_cons] at hc
      rcases hc with hc | hc
      · rw [hc]
        rfl
      · exact ih s2 cell hc

/-- Allocating a zero-filled `(L, B, 2)` array and assigning channel 0
from `depth` and channel 1 from `starts` pairs the two sources plane by
plane. -/
theorem assign_channels_outer :
    ∀ (depth starts : Mat) (L B : Nat), depth.length = L → starts.length = L →
      (∀ r ∈ depth, r.length = B) → (∀ r ∈ starts, r.length = B) →
      assignChannel (assignChannel (zeros3 L B 2) 0 depth) 1 starts
        = List.zipWith (fun d s => List.zipWith (fun x y => [x, y]) d s) depth starts := by
  intro depth
  induction depth with
  | nil =>
    intro starts L B h1 _ _ _
    rw [← h1]
    rfl
  | cons dr depth2 ih =>
    intro starts L B h1 h2 hd hs
    cases starts with
    | nil =>
      rw [← h1] at h2
      simp at h2
    | cons sr starts2 =>
      cases L with
      | zero => simp at h1
      | succ L2 =>
        have hdr : dr.length = B := hd dr (List.mem_cons_self _ _)
        have hsr : sr.length = B := hs sr (List.mem_cons_self _ _)
        show List.zipWith _ (List.zipWith _ (List.replicate (L2 + 1) (List.replicate B (List.replicate 2 0))) _) _ = _
        rw [List.replicate_succ _ _]
        simp only [assignChannel, List.zipWith_cons_cons]
        have hplane : List.zipWith (fun cell v => cell.set 1 v)
            (List.zipWith (fun cell v => cell.set 0 v)
              (List.replicate B (List.replicate 2 0)) dr) sr
            = List.zipWith (fun x y => [x, y]) dr sr := by
          have hp := plane_assign dr sr (by rw [hdr, hsr])
          rw [hdr] at hp
          exact hp
        rw [hplane]
        have htail := ih starts2 L2 B
          (by rw [List.length_cons] at h1; omega)
          (by rw [List.length_cons] at h2; omega)
          (fun r hr => hd r (List.mem_cons_of_mem _ hr))
          (fun r hr => hs r (List.mem_cons_of_mem _ hr))
        simp only [assignChannel, zeros3] at htail
        rw [htail]

theorem zip_planes_map_getD0 :
    ∀ (depth starts : Mat) (B : Nat), depth.length = starts.length →
      (∀ r ∈ depth, r.length = B) → (∀ r ∈ starts, r.length = B) →
      (List.zipWith (fun d s => List.zipWith (fun x y => [x, y]) d s) depth starts).map
        (fun plane => plane.map (fun cell => cell.getD 0 0)) = depth := by
  intro depth
  induction depth with
  | nil =>
    intro starts B _ _ _
    rfl
  | cons dr depth2 ih =>
    intro starts B hlen hd hs
    cases starts with
    | nil => simp at hlen
    | cons sr starts2 =>
      simp only [List.zipWith_cons_cons, List.map_cons]
      rw [zip_pair_map_getD0 dr sr
          (by rw [hd dr (List.mem_cons_self _ _), hs sr (List.mem_cons_self _ _)]),
        ih starts2 B (by rw [List.length_cons, List.length_cons] at hlen; omega)
          (fun q hq => hd q (List.mem_cons_of_mem _ hq))
          (fun q hq => hs q (List.mem_cons_of_mem _ hq))]

theorem zip_planes_map_getD1 :
    ∀ (depth starts : Mat) (B : Nat), depth.length = starts.length →
      (∀ r ∈ depth, r.length = B) → (∀ r ∈ starts, r.length = B) →
      (List.zipWith (fun d s => List.zipWith (fun x y => [x, y]) d s) depth starts).map
        (fun plane => plane.map (fun cell => cell.getD 1 0)) = starts := by
  intro depth
  induction depth with
  | nil =>
    intro starts B hlen _ _
    cases starts with
    | nil => rfl
    | cons sr starts2 => simp at hlen
  | cons dr depth2 ih =>
    intro starts B hlen hd hs
    cases starts with
    | nil => simp at hlen
    | cons sr starts2 =>
      simp only [List.zipWith_cons_cons, List.map_cons]
      rw [zip_pair_map_getD1 dr sr
          (by rw [hd dr (List.mem_cons_self _ _), hs sr (List.mem_cons_self _ _)]),
        ih starts2 B (by rw [List.length_cons, List.length_cons] at hlen; omega)
          (fun q hq => hd q (List.mem_cons_of_mem _ hq))
          (fun q hq => hs q (List.mem_cons_of_mem _ hq))]

theorem zip_planes_shape :
    ∀ (depth starts : Mat) (B : Nat),
      (∀ r ∈ depth, r.length = B) → (∀ r ∈ starts, r.length = B) →
      ∀ plane ∈ List.zipWith (fun d s => List.zipWith (fun x y => [x, y]) d s) depth starts,
        plane.length = B ∧ ∀ cell ∈ plane, cell.length = 2 := by
  intro depth
  induction depth with
  | nil =>
    intro starts B _ _ plane hp
    simp at hp
  | cons dr depth2 ih =>
    intro starts B hd hs plane hp
    cases starts with
    | nil => simp at hp
    | cons sr starts2 =>
      simp only [List.zipWith_cons_cons, List.mem_cons] at hp
      rcases hp with hp | hp
      · constructor
        · rw [hp, List.length_zipWith, hd dr (List.mem_cons_self _ _),
            hs sr (List.mem_cons_self _ _), Nat.min_self]
        · intro cell hc
          rw [hp] at hc
          exact zip_pair_cell_length dr sr cell hc
      · exact ih starts2 B (fun q hq => hd q (List.mem_cons_of_mem _ hq))
          (fun q hq => hs q (List.mem_cons_of_mem _ hq)) plane hp

/--
C3: writing a region matrix of shape `(2B, L)` with `write_to_h5` creates
an array of shape `(L, B, 2)` and then flushes the container; channel 0 of
the array is the transpose of the matrix's depth rows `[B, 2B)` and
channel 1 is the transpose of its start rows `[0, B)`.
-/
theorem claim3_write_to_h5_channel_layout
    (B L : Nat) (r : String) (m : Mat)
    (hrows : m.length = 2 * B) (hcols : ∀ row ∈ m, row.length = L) (hB : 0 < B) :
    write_to_h5 [(r, m)] = [.createArrayEv r (write_to_h5_region m), .flushEv] ∧
    (write_to_h5_region m).length = L ∧
    (∀ plane ∈ write_to_h5_region m,
      plane.length = B ∧ ∀ cell ∈ plane, cell.length = 2) ∧
    (write_to_h5_region m).map (fun plane => plane.map (fun cell => cell.getD 0 0))
      = transposeM (m.drop B) L ∧
    (write_to_h5_region m).map (fun plane => plane.map (fun cell => cell.getD 1 0))
      = transposeM (m.take B) L := by
  have hm0 : m ≠ [] := by
    intro hc
    rw [hc] at hrows
    simp at hrows
    omega
  have hncols : (m.headD []).length = L := by
    cases m with
    | nil => exact absurd rfl hm0
    | cons r0 m2 => exact hcols r0 (List.mem_cons_self _ _)
  have hdiv : m.length / 2 = B := by
    rw [hrows]
    exact Nat.mul_div_cancel_left B (by norm_num)
  have hdrop_len : ∀ q ∈ transposeM (m.drop B) L, q.length = B := by
    intro q hq
    rw [transposeM_row_length (m.drop B) L q hq, List.length_drop, hrows]
    omega
  have htake_len : ∀ q ∈ transposeM (m.take B) L, q.length = B := by
    intro q hq
    rw [transposeM_row_length (m.take B) L q hq, List.length_take, hrows]
    omega
  have hregion : write_to_h5_region m
      = assignChannel (assignChannel (zeros3 L B 2) 0 (transposeM (m.drop B) L)) 1
          (transposeM (m.take B) L) := by
    simp only [write_to_h5_region]
    rw [hncols, hdiv, transposeM_map_drop, transposeM_map_take]
  have houter : write_to_h5_region m
      = List.zipWith (fun d s => List.zipWith (fun x y => [x, y]) d s)
          (transposeM (m.drop B) L) (transposeM (m.take B) L) := by
    rw [hregion]
    exact assign_channels_outer (transposeM (m.drop B) L) (transposeM (m.take B) L) L B
      (transposeM_length _ _) (transposeM_length _ _) hdrop_len htake_len
  refine ⟨rfl, ?_, ?_, ?_, ?_⟩
  · rw [houter, List.length_zipWith, transposeM_length, transposeM_length, Nat.min_self]
  · rw [houter]
    exact zip_planes_shape (transposeM (m.drop B) L) (transposeM (m.take B) L) B
      hdrop_len htake_len
  · rw [houter]
    exact zip_planes_map_getD0 (transposeM (m.drop B) L) (transposeM (m.take B) L) B
      (by rw [transposeM_length, transposeM_length]) hdrop_len htake_len
  · rw [houter]
    exact zip_planes_map_getD1 (transposeM (m.drop B) L) (transposeM (m.take B) L) B
      (by rw [transposeM_length, transposeM_length]) hdrop_len htake_len

theorem claim3_write_to_h5_channel_layout_witness :
    write_to_h5 [("chr1", [[1, 2], [3, 4]])]
      = [.createArrayEv "chr1" (write_to_h5_region [[1, 2], [3, 4]]), .flushEv] ∧
    (write_to_h5_region [[1, 2], [3, 4]]).length = 2 ∧
    (∀ plane ∈ write_to_h5_region [[1, 2], [3, 4]],
      plane.length = 1 ∧ ∀ cell ∈ plane, cell.length = 2) ∧
    (write_to_h5_region [[1, 2], [3, 4]]).map
        (fun plane => plane.map (fun cell => cell.getD 0 0))
      = transposeM ([[1, 2], [3, 4]].drop 1) 2 ∧
    (write_to_h5_region [[1, 2], [3, 4]]).map
        (fun plane => plane.map (fun cell => cell.getD 1 0))
      = transposeM ([[1, 2], [3, 4]].take 1) 2 :=
  claim3_write_to_h5_channel_layout 1 2 "chr1" [[1, 2], [3, 4]]
    (by decide) (by decide) (by decide)
